import Mathlib

/-!
Shallow embedding of `gtd.py` (repository za3k/gtd-chart) and proofs about it.

The Python program parses a GTD-style to-do list into Task/Goal/Note entities,
resolves the implicit goal hierarchy ("in order to" chains) with a work-queue
fixpoint (`readfile`, lines 197-221), and normalizes the resulting object graph
(`normalize_goals`, lines 222-234).

Modelling conventions:
* Python objects live in an arena (`List Entity`); an object reference is a
  `Nat` index into that arena.  Mutation is explicit state passing of the
  arena.  Python's default object equality (`is`-like `==` when `__eq__` is
  not overridden) is index equality.
* `Task` and `Goal` instances are both modelled by `Entity`, discriminated by
  `Entity.kind`.  A `Goal` in Python has no `context`/`status` attribute; the
  corresponding fields of a goal `Entity` are set to `none`/`Status.mk ""` and
  are never read by the embedded code paths (every read is guarded by a kind
  check, as in the source).
* Fallible Python code (exceptions: `ParseException`, `IndexError`,
  `ValueError`, failed `assert`) is modelled with `Option`, `none` meaning the
  call raises.
* The two potentially diverging loops (`readfile`'s work queue and the parent
  walk inside `normalize_goals`) take explicit fuel and return `none` when the
  fuel runs out; in Python they would not terminate on cyclic inputs.
-/

namespace Gtd

/-- Kind tag discriminating the two entity classes `Task` (gtd.py line 47) and
`Goal` (line 126). -/
inductive Kind where
  | task : Kind
  | goal : Kind
deriving DecidableEq, Repr, Inhabited

/-- Python `str.lower` restricted to ASCII (all strings handled by the claims
are ASCII; on ASCII the two functions agree). -/
def pyLowerChar (c : Char) : Char :=
  if 'A' ≤ c ∧ c ≤ 'Z' then Char.ofNat (c.toNat + 32) else c

/-- Python `s.lower()` on a whole string. -/
def pyLower (s : String) : String := ⟨s.data.map pyLowerChar⟩

/-- Status wrapper (gtd.py lines 14-16): wraps the free-text status string. -/
structure Status where
  status : String
deriving DecidableEq, Repr, Inhabited

/-- Status.done (gtd.py lines 17-19): lowercased status is one of
"done", "complete", "finished". -/
def Status.done (s : Status) : Bool :=
  decide (pyLower s.status ∈ ["done", "complete", "finished"])

/-- Status.urgent (gtd.py lines 20-21). -/
def Status.urgent (s : Status) : Bool :=
  decide (pyLower s.status ∈ ["urgent"])

/-- Status.delegated (gtd.py lines 22-24): lowercased status starts with
"delegated". -/
def Status.delegated (s : Status) : Bool :=
  "delegated".data.isPrefixOf (pyLower s.status).data

/-- Status.parse (gtd.py lines 33-38): the string must start with `[` and end
with `]`; the bracket contents become the status.  `none` models the raised
`ParseException`. -/
def Status.parseFn (s : String) : Option Status :=
  if s.data.head? = some '[' ∧ s.data.getLast? = some ']' then
    some ⟨⟨(s.data.drop 1).dropLast⟩⟩
  else none

/-- Status.instance (gtd.py lines 39-46): `parse` wrapped to swallow the error
and return a Bool. -/
def Status.instance' (s : String) : Bool := (Status.parseFn s).isSome

/-- Shared representation of Python `Task` (gtd.py lines 47-63) and `Goal`
(lines 126-134) objects.  `parent` and `subtasks` hold arena indices (object
references).  For a goal, `context` and `status` are dummy fields that no
embedded code path reads (the source never reads them on a `Goal` either). -/
structure Entity where
  kind : Kind
  description : String
  display_description : String
  context : Option String
  status : Status
  goals : List String
  subtasks : List Nat
  parent : Option Nat
deriving DecidableEq, Repr

instance : Inhabited Entity :=
  ⟨{ kind := Kind.task, description := "", display_description := "",
     context := none, status := ⟨""⟩, goals := [], subtasks := [],
     parent := none }⟩

/-- Read an object out of the arena (a Python attribute access through a
reference). -/
def getE (h : List Entity) (i : Nat) : Entity := h.getD i default

/-- Write an object back into the arena (a Python attribute mutation through a
reference). -/
def setE (h : List Entity) (i : Nat) (e : Entity) : List Entity := h.set i e

/-- Goal.toplevel (gtd.py lines 137-138). -/
def toplevel (h : List Entity) (i : Nat) : Bool := (getE h i).parent.isNone

/-! ## shlex tokenization

`Task.parse` and `Note.parse` tokenize with `shlex.split` (POSIX mode,
whitespace split): whitespace separates tokens, single and double quotes group,
backslash escapes (inside double quotes only before `"` and `\`).  An unclosed
quote or trailing escape raises `ValueError`, modelled as `none`. -/

/-- Whitespace characters recognized by `shlex` (its `whitespace` attribute). -/
def isShlexWs (c : Char) : Bool :=
  c = ' ' ∨ c = '\t' ∨ c = '\r' ∨ c = '\n'

/-- Lexer state: outside any quote, inside single quotes, inside double
quotes. -/
inductive ShState where
  | out : ShState
  | insingle : ShState
  | indouble : ShState
deriving DecidableEq, Repr

/-- Core loop of the `shlex.split` model.  `cur = some t` means a token with
accumulated characters `t` is in progress (`some []` after an empty quoted
string still emits an empty token). -/
def shlexRun : List Char → ShState → Option (List Char) → List (List Char) →
    Option (List String)
  | [], ShState.out, cur, acc =>
    some ((match cur with
           | none => acc
           | some t => acc ++ [t]).map (fun t => ⟨t⟩))
  | [], _, _, _ => none
  | c :: rest, ShState.out, cur, acc =>
    if isShlexWs c then
      match cur with
      | none => shlexRun rest ShState.out none acc
      | some t => shlexRun rest ShState.out none (acc ++ [t])
    else if c = '\'' then shlexRun rest ShState.insingle (some (cur.getD [])) acc
    else if c = '"' then shlexRun rest ShState.indouble (some (cur.getD [])) acc
    else if c = '\\' then
      match rest with
      | [] => none
      | c2 :: rest2 => shlexRun rest2 ShState.out (some (cur.getD [] ++ [c2])) acc
    else shlexRun rest ShState.out (some (cur.getD [] ++ [c])) acc
  | c :: rest, ShState.insingle, cur, acc =>
    if c = '\'' then shlexRun rest ShState.out cur acc
    else shlexRun rest ShState.insingle (some (cur.getD [] ++ [c])) acc
  | c :: rest, ShState.indouble, cur, acc =>
    if c = '"' then shlexRun rest ShState.out cur acc
    else if c = '\\' then
      match rest with
      | [] => none
      | c2 :: rest2 =>
        if c2 = '"' ∨ c2 = '\\' then
          shlexRun rest2 ShState.indouble (some (cur.getD [] ++ [c2])) acc
        else
          shlexRun rest2 ShState.indouble (some (cur.getD [] ++ ['\\', c2])) acc
    else shlexRun rest ShState.indouble (some (cur.getD [] ++ [c])) acc

/-- Model of `shlex.split` as called at gtd.py lines 78 and 144. -/
def shlexSplit (s : String) : Option (List String) :=
  shlexRun s.data ShState.out none []

/-! ## Grammar -/

/-- Note object (gtd.py lines 139-141). -/
structure Note where
  note : String
deriving DecidableEq, Repr

/-- Note.parse (gtd.py lines 142-150): token 0 must be "note"
(case-insensitive) and there must be exactly 2 tokens; the second token is
the note text.  `none` models the raised exception (a `ValueError` from
`shlex`, the `IndexError` on an empty token list, or the `ParseException`s). -/
def Note.parseFn (s : String) : Option Note :=
  match shlexSplit s with
  | none => none
  | some [] => none
  | some (a :: rest) =>
    if pyLower a = "note" then
      match rest with
      | [b] => some ⟨b⟩
      | _ => none
    else none

/-- Note.instance (gtd.py lines 151-153). -/
def Note.instance' (s : String) : Bool :=
  match shlexSplit s with
  | none => false
  | some [] => false
  | some (a :: _) => pyLower a = "note"

/-- Task.instance (gtd.py lines 116-119): the lowercased line starts with the
two characters "do" (`string.lower().startswith("do")`). -/
def Task.instance' (s : String) : Bool :=
  "do".data.isPrefixOf (pyLower s).data

/-- Task.__init__ (gtd.py lines 47-63).  The `parent` argument (the
`parenttask` of `Task.parse`) is an already-parsed entity: when present, the
new task's `goals` become `parent.goals + [parent.description]` and the
caller-supplied `goals` must equal that chain or be empty (the `assert` at
line 61, whose failure is modelled by `none`).  The `parent` *field* of the
result is always `none` (line 57). -/
def Task.init (description : String) (context : Option String)
    (status : Option Status) (goals : List String) (parent : Option Entity) :
    Option Entity :=
  match parent with
  | some p =>
    if goals = p.goals ++ [p.description] ∨ goals = [] then
      some { kind := Kind.task, description := description,
             display_description := description, context := context,
             status := status.getD ⟨""⟩,
             goals := p.goals ++ [p.description], subtasks := [],
             parent := none }
    else none
  | none =>
    some { kind := Kind.task, description := description,
           display_description := description, context := context,
           status := status.getD ⟨""⟩, goals := goals, subtasks := [],
           parent := none }

/-- Trailing-clause loop of Task.parse (gtd.py lines 100-110): repeatedly
consume either `in order to <reason>` (4 tokens) or a final status token.
Returns the reasons in encounter order together with the status.  `none`
models the `ParseException`s ("Status should always be last in task",
"generic error") and the `IndexError` when `in order to` has no fourth
token. -/
def clauseLoop : List String → List String → Option Status →
    Option (List String × Option Status)
  | [], reasons, status => some (reasons, status)
  | a :: rest, reasons, status =>
    if [a] ++ rest.take 2 = ["in", "order", "to"] then
      match rest with
      | _ :: _ :: r :: rest4 => clauseLoop rest4 (reasons ++ [r]) status
      | _ => none
    else if Status.instance' a then
      if rest = [] then
        match Status.parseFn a with
        | some st => some (reasons, some st)
        | none => none
      else none
    else none

/-- Context decision of Task.parse (gtd.py lines 86-97): no context when the
line has only `Do <task>`, when token 2 opens an `in order to` clause, or when
token 2 is a status; otherwise token 2 is the context.  Returns the context
and the remaining tokens for the trailing-clause loop. -/
def ctxSplit (rest1 : List String) : Option String × List String :=
  if rest1 = [] then (none, [])
  else if rest1.take 3 = ["in", "order", "to"] then (none, rest1)
  else if Status.instance' (rest1.headD "") then (none, rest1)
  else (some (rest1.headD ""), rest1.tail)

/-- Task.parse (gtd.py lines 75-115).  Tokenizes with `shlex.split`, requires
token 0 to be exactly "Do", takes token 1 as the description, decides whether
token 2 is a context (it is not when it starts an `in order to` clause or is a
status), runs the trailing-clause loop, reverses the collected reasons
(line 111) and builds the task via `Task.__init__`. -/
def Task.parse (s : String) (parenttask : Option Entity) : Option Entity :=
  match shlexSplit s with
  | none => none
  | some [] => none
  | some (a0 :: rest0) =>
    if a0 = "Do" then
      match rest0 with
      | [] => none
      | task :: rest1 =>
        match clauseLoop (ctxSplit rest1).2 [] none with
        | none => none
        | some (reasons, status) =>
          Task.init task (ctxSplit rest1).1 status reasons.reverse parenttask
    else none

/-! ## readfile's work-queue fixpoint (gtd.py lines 204-220)

After building the flat entity list, `readfile` indexes every entity by
description into a dict `d`, then repeatedly pops entities off a queue: for an
entity `v` with a non-empty `goals` chain it synthesizes (or updates) the goal
named by `v.goals[-1]`, links `v.parent` to it and appends `v` to its
`subtasks`.  The Python queue is a stack (append / pop at the right end); we
keep it reversed, so its head is the next element to pop, pushing is `cons`,
and `in queue` is plain membership. -/

/-- Dict comprehension `{x.description : x for x in lst}` (gtd.py line 204):
association list whose head shadows the tail, so a later entity overwrites an
earlier one with the same description (last writer wins). -/
def initDict (h : List Entity) : List (String × Nat) :=
  (List.range h.length).foldl (fun d i => ((getE h i).description, i) :: d) []

/-- The while-loop of `readfile` (gtd.py lines 206-220).  `fuel` bounds the
number of iterations (`none` = fuel exhausted); each recursive call models one
`queue.pop()`. -/
def readfileLoop : Nat → List Entity → List (String × Nat) → List Nat →
    List Nat → Option (List Entity × List Nat)
  | _, h, _, [], lst => some (h, lst)
  | 0, _, _, _ :: _, _ => none
  | fuel + 1, h, d, v :: q, lst =>
    let e := getE h v
    if e.goals.isEmpty then
      readfileLoop fuel h d q (lst ++ [v])
    else
      let g := e.goals.getLastD ""
      match List.lookup g d with
      | none =>
        let gi := h.length
        let h1 := h ++ [{ kind := Kind.goal, description := g,
                          display_description := g, context := none,
                          status := ⟨""⟩, goals := e.goals.dropLast,
                          subtasks := [], parent := none }]
        let d1 := (g, gi) :: d
        let q1 := gi :: q
        let h2 := setE h1 v { getE h1 v with parent := some gi }
        let h3 := setE h2 gi { getE h2 gi with
                               subtasks := (getE h2 gi).subtasks ++ [v] }
        readfileLoop fuel h3 d1 q1 (lst ++ [v])
      | some gi =>
        let grew := e.goals.dropLast.length > (getE h gi).goals.length
        let h1 := if grew then
            setE h gi { getE h gi with goals := e.goals.dropLast }
          else h
        let q1 := if grew then (if gi ∈ q then q else gi :: q) else q
        let h2 := setE h1 v { getE h1 v with parent := some gi }
        let h3 := setE h2 gi { getE h2 gi with
                               subtasks := (getE h2 gi).subtasks ++ [v] }
        readfileLoop fuel h3 d q1 (lst ++ [v])

/-- The fixpoint part of `readfile` (gtd.py lines 204-221), starting from the
flat parsed entity list: build the description index, seed the queue with every
entity (popped in reverse input order, as `list.pop()` takes the last element),
and run the loop.  Returns the final arena and the `lst` that `readfile`
returns (as arena indices). -/
def readfileFix (fuel : Nat) (h : List Entity) :
    Option (List Entity × List Nat) :=
  readfileLoop fuel h (initDict h) (List.range h.length).reverse []

/-! ## normalize_goals (gtd.py lines 222-234) -/

/-- Body of the first sweep (gtd.py lines 224-226): give a subtask-child `c`
its structural parent `n` if it has none. -/
def parentFix (n : Nat) (h : List Entity) (c : Nat) : List Entity :=
  if (getE h c).parent = none then
    setE h c { getE h c with parent := some n }
  else h

/-- Inner loop of the first sweep (`for c in n.subtasks`). -/
def sweep1Inner (n : Nat) : List Entity → List Nat → List Entity
  | h, [] => h
  | h, c :: cs => sweep1Inner n (parentFix n h c) cs

/-- First sweep of normalize_goals (gtd.py lines 223-226): ensure every
subtask lists its structural parent if unset. -/
def sweep1 : List Entity → List Nat → List Entity
  | h, [] => h
  | h, n :: rest => sweep1 (sweep1Inner n h (getE h n).subtasks) rest

/-- The parent walk of normalize_goals (gtd.py lines 228-232): collect the
descriptions of the proper ancestors of a node, nearest first, by following
`parent` pointers.  In Python this `while` loop diverges on a parent cycle;
`fuel` bounds the walk and `none` models divergence. -/
def parentWalk (h : List Entity) : Nat → Option Nat → Option (List String)
  | _, none => some []
  | 0, some _ => none
  | fuel + 1, some i =>
    (parentWalk h fuel (getE h i).parent).map
      (fun l => (getE h i).description :: l)

/-- Second sweep of normalize_goals (gtd.py lines 227-233): replace every
entity's `goals` chain by the chain of ancestor descriptions obtained from the
parent walk.  The fuel `h.length + 1` suffices for every acyclic parent chain
(an acyclic chain visits pairwise distinct arena indices). -/
def sweep2 : List Nat → List Entity → Option (List Entity)
  | [], h => some h
  | n :: rest, h =>
    match parentWalk h (h.length + 1) (getE h n).parent with
    | none => none
    | some gs => sweep2 rest (setE h n { getE h n with goals := gs })

/-- normalize_goals (gtd.py lines 222-234), over the entity references in
`lst`: the parent-fixing sweep followed by the chain-rebuilding sweep.
`none` models divergence of the parent walk on a cyclic graph. -/
def normalize_goals (lst : List Nat) (h : List Entity) :
    Option (List Entity) :=
  sweep2 lst (sweep1 h lst)

/-- Full normalization as performed by `main` (gtd.py lines 336-339):
`readfile`'s fixpoint followed by `normalize_goals` over the resulting entity
list. -/
def fullNormalize (fuel : Nat) (h : List Entity) :
    Option (List Entity × List Nat) :=
  match readfileFix fuel h with
  | none => none
  | some (h1, lst) =>
    match normalize_goals lst h1 with
    | none => none
    | some h2 => some (h2, lst)

/-- Length of the parent walk: the number of parent-pointer hops to the root
(`none` when the walk does not terminate within the fuel). -/
def parentHops (h : List Entity) : Nat → Option Nat → Option Nat
  | _, none => some 0
  | 0, some _ => none
  | fuel + 1, some i => (parentHops h fuel (getE h i).parent).map (· + 1)

/-- Description of a node's parent, when it has one. -/
def parentDesc (h : List Entity) (n : Nat) : Option String :=
  match (getE h n).parent with
  | none => none
  | some p => some ((getE h p).description)

/-- Agreement of two entities on every field except `parent` (the only field
the first sweep of normalize_goals writes). -/
def exceptParentEq (a b : Entity) : Prop :=
  a.kind = b.kind ∧ a.description = b.description ∧
    a.display_description = b.display_description ∧ a.context = b.context ∧
    a.status = b.status ∧ a.goals = b.goals ∧ a.subtasks = b.subtasks

/-- The first sweep of normalize_goals has nothing left to do: every in-range
subtask child of a listed node already has a parent pointer. -/
def sweep1Fixed (h : List Entity) (lst : List Nat) : Prop :=
  ∀ n ∈ lst, ∀ c ∈ (getE h n).subtasks, c < h.length →
    (getE h c).parent ≠ none

/-! ## Query / view layer (gtd.py lines 286-333) -/

/-- tasks (gtd.py lines 286-287): keep the Task entities, in order. -/
def tasksOf (h : List Entity) (nodes : List Nat) : List Nat :=
  nodes.filter fun t => decide ((getE h t).kind = Kind.task)

/-- goals (gtd.py lines 288-289): keep the Goal entities, in order. -/
def goalsOf (h : List Entity) (nodes : List Nat) : List Nat :=
  nodes.filter fun t => decide ((getE h t).kind = Kind.goal)

/-- only_contexts (gtd.py lines 298-305): first yield the tasks whose context
is absent (when `include_none`) or equals `positive_context`, then yield every
goal. -/
def only_contexts (h : List Entity) (nodes : List Nat)
    (positive_context : Option String) (include_none : Bool) : List Nat :=
  ((tasksOf h nodes).filter fun t =>
    (decide ((getE h t).context = none) && include_none) ||
      decide ((getE h t).context = positive_context))
  ++ goalsOf h nodes

/-- Does the node's parent exist and refer to a Goal
(`isinstance(n.parent, Goal)`, which is False for `None`)? -/
def parentIsGoal (h : List Entity) (e : Entity) : Bool :=
  match e.parent with
  | none => false
  | some p => decide ((getE h p).kind = Kind.goal)

/-- Yield `n` in front of the remaining generator output. -/
def yieldCons (n : Nat) (r : List Entity × List Nat) :
    List Entity × List Nat :=
  (r.1, n :: r.2)

/-- The descendant list of gtd.py line 330: the tasks among the input whose
goal chain mentions `m`'s description. -/
def descendantsOf (nodes0 : List Nat) (h : List Entity) (m : Nat) :
    List Nat :=
  (tasksOf h nodes0).filter fun t =>
    decide ((getE h m).description ∈ (getE h t).goals)

/-- Display annotation of gtd.py lines 329-332: when the node is done and has
descendants, rewrite its `display_description` to carry the descendant
count. -/
def abbrevDisplay (nodes0 : List Nat) (h : List Entity) (m : Nat) :
    List Entity :=
  if (getE h m).status.done then
    if (descendantsOf nodes0 h m).isEmpty then h
    else
      let label := "(" ++ toString ((descendantsOf nodes0 h m).length + 1) ++
        ") " ++ (getE h m).description
      setE h m { getE h m with display_description := label }
  else h

/-- Recursion for `abbreviated` (gtd.py lines 322-333).  `nodes0` is the full
input list (the Python generator's closed-over `nodes`, used for the
descendant count); the second list is the remaining iteration.  Returns the
final arena (display annotations applied) and the yielded indices in order. -/
def abbrevAux (nodes0 : List Nat) : List Entity → List Nat →
    List Entity × List Nat
  | h, [] => (h, [])
  | h, m :: rest =>
    if decide ((getE h m).kind = Kind.goal) || parentIsGoal h (getE h m) then
      yieldCons m (abbrevAux nodes0 h rest)
    else
      match (getE h m).parent with
      | none => yieldCons m (abbrevAux nodes0 h rest)
      | some p =>
        if (getE h p).status.done then
          abbrevAux nodes0 h rest
        else
          yieldCons m (abbrevAux nodes0 (abbrevDisplay nodes0 h m) rest)

/-- abbreviated (gtd.py lines 322-333): pass goals and children of goals
through; pass orphans through; drop any node whose (non-Goal, non-None) parent
is done; annotate a done node that still has descendants. -/
def abbreviated (h : List Entity) (nodes : List Nat) :
    List Entity × List Nat :=
  abbrevAux nodes h nodes

/-! ## Object equality and hashing

Python's `Task` overrides `__hash__` (gtd.py lines 120-121) but not `__eq__`,
so `==` between two tasks is default object identity. -/

/-- Python `==` between two entity objects: `Task`/`Goal` define no `__eq__`,
so this is object identity — equality of arena indices. -/
def objectEq (i j : Nat) : Bool := i == j

/-- Deterministic model of Python `hash` on strings.  Its exact values are
unspecified in Python (and salted per process); all that the program relies on
is that it is a function of the string, which any concrete choice satisfies. -/
def pyStrHash (s : String) : Nat :=
  s.data.foldl (fun a c => (a * 1000003 + c.toNat) % 2 ^ 64) 0

/-- Task.__hash__ (gtd.py lines 120-121): `hash(self.description)`. -/
def taskHash (h : List Entity) (i : Nat) : Nat :=
  pyStrHash (getE h i).description

/-! ## Definitions taken from the claims' words (for refinement comparison)

The two definitions below are *not* translations of the source; they state
what the corresponding claims say the code does, to be compared against the
source-derived functions above. -/

/-- Modelled from the claim's words (C5): the line starts, case-insensitively,
with "do" as a complete first word — its first whitespace-delimited word,
lowercased, is exactly "do". -/
def startsWithWordDo (s : String) : Bool :=
  decide ((⟨(pyLower s).data.takeWhile (fun c => !(isShlexWs c))⟩ : String) = "do")

/-- Task-keeping predicate of only_contexts (kept tasks: context matching
`pc`, or absent context when `incl`). -/
def taskKept (h : List Entity) (pc : Option String) (incl : Bool)
    (n : Nat) : Bool :=
  decide ((getE h n).kind = Kind.task) &&
    ((decide ((getE h n).context = none) && incl) ||
      decide ((getE h n).context = pc))

/-- Modelled from the claim's words (C7): a single order-preserving filter of
the input list, keeping goals always and the matching tasks, with all kept
entities in their input relative order. -/
def only_contexts_claim (h : List Entity) (nodes : List Nat)
    (pc : Option String) (incl : Bool) : List Nat :=
  nodes.filter fun n =>
    decide ((getE h n).kind = Kind.goal) || taskKept h pc incl n

/-- Agreement of two arenas on the fields that decide `abbreviated`'s
branches (everything the view reads except `display_description`, the only
field it writes). -/
def coreAgree (h h' : List Entity) : Prop :=
  ∀ i, (getE h' i).kind = (getE h i).kind ∧
    (getE h' i).parent = (getE h i).parent ∧
    (getE h' i).status = (getE h i).status

/-! ## Concrete example objects used by the scenario claims and witnesses -/

/-- The input line of the dishes scenario. -/
def dishLine : String :=
  "Do dishes in order to \"keep kitchen clean\" in order to \"be a good roommate\""

/-- The task produced by `Task.parse dishLine none`. -/
def dishTask : Entity :=
  { kind := Kind.task, description := "dishes", display_description := "dishes",
    context := none, status := ⟨""⟩,
    goals := ["be a good roommate", "keep kitchen clean"],
    subtasks := [], parent := none }

/-- The arena after `fullNormalize 10 [dishTask]`: the dishes task plus the
two synthesized goals, fully linked; note that the second sweep of
`normalize_goals` rebuilt the task's `goals` chain nearest-ancestor-FIRST. -/
def dishNormalized : List Entity :=
  [{ kind := Kind.task, description := "dishes",
     display_description := "dishes", context := none, status := ⟨""⟩,
     goals := ["keep kitchen clean", "be a good roommate"],
     subtasks := [], parent := some 1 },
   { kind := Kind.goal, description := "keep kitchen clean",
     display_description := "keep kitchen clean", context := none,
     status := ⟨""⟩, goals := ["be a good roommate"], subtasks := [0],
     parent := some 2 },
   { kind := Kind.goal, description := "be a good roommate",
     display_description := "be a good roommate", context := none,
     status := ⟨""⟩, goals := [], subtasks := [1], parent := none }]

/-- The task produced by `Task.parse "Do x" none`. -/
def doXTask : Entity :=
  { kind := Kind.task, description := "x", display_description := "x",
    context := none, status := ⟨""⟩, goals := [], subtasks := [],
    parent := none }

/-- Two distinct task objects with the same description (a legal duplicate in
the source format). -/
def twoTasks : List Entity :=
  [{ kind := Kind.task, description := "a", display_description := "a",
     context := none, status := ⟨""⟩, goals := [], subtasks := [],
     parent := none },
   { kind := Kind.task, description := "a", display_description := "a",
     context := some "home", status := ⟨""⟩, goals := [], subtasks := [],
     parent := none }]

/-- A goal followed by a matching-context task, for the only_contexts order
counterexample. -/
def ocHeap : List Entity :=
  [{ kind := Kind.goal, description := "root", display_description := "root",
     context := none, status := ⟨""⟩, goals := [], subtasks := [],
     parent := none },
   { kind := Kind.task, description := "t", display_description := "t",
     context := some "gym", status := ⟨""⟩, goals := [], subtasks := [],
     parent := none }]

/-- A one-entity arena whose goals chain is stale, for the idempotence
witness (input side). -/
def wC3pre : List Entity :=
  [{ kind := Kind.task, description := "a", display_description := "a",
     context := none, status := ⟨""⟩, goals := ["x"], subtasks := [],
     parent := none }]

/-- `normalize_goals [0] wC3pre`: the stale chain is rebuilt (empty, as the
entity has no parent). -/
def wC3post : List Entity :=
  [{ kind := Kind.task, description := "a", display_description := "a",
     context := none, status := ⟨""⟩, goals := [], subtasks := [],
     parent := none }]

/-- Two-goal arena (root and child) before normalization, for the C4
witness. -/
def wC4pre : List Entity :=
  [{ kind := Kind.goal, description := "root", display_description := "root",
     context := none, status := ⟨""⟩, goals := ["junk"], subtasks := [1],
     parent := none },
   { kind := Kind.goal, description := "leaf", display_description := "leaf",
     context := none, status := ⟨""⟩, goals := [], subtasks := [],
     parent := some 0 }]

/-- `normalize_goals [0, 1] wC4pre`. -/
def wC4post : List Entity :=
  [{ kind := Kind.goal, description := "root", display_description := "root",
     context := none, status := ⟨""⟩, goals := [], subtasks := [1],
     parent := none },
   { kind := Kind.goal, description := "leaf", display_description := "leaf",
     context := none, status := ⟨""⟩, goals := ["root"], subtasks := [],
     parent := some 0 }]

/-- A done parent task with one child task, for the `abbreviated` drop
witness. -/
def abHeap : List Entity :=
  [{ kind := Kind.task, description := "p", display_description := "p",
     context := none, status := ⟨"done"⟩, goals := [], subtasks := [],
     parent := none },
   { kind := Kind.task, description := "c", display_description := "c",
     context := none, status := ⟨""⟩, goals := ["p"], subtasks := [],
     parent := some 0 }]

/-! # Theorems -/

/-- C2: parsing `Do dishes in order to "keep kitchen clean" in order to
"be a good roommate"` (no parent task) yields a task with description
"dishes", no context and goals `["be a good roommate", "keep kitchen clean"]`
(clauses in encounter order, reversed, nearest goal last); normalizing the
one-task list synthesizes Goal entities for both descriptions and links the
dishes task to the goal "keep kitchen clean" as its parent. -/
theorem c2_dishes_scenario :
    Task.parse dishLine none = some dishTask ∧
    dishTask.description = "dishes" ∧
    dishTask.context = none ∧
    dishTask.goals = ["be a good roommate", "keep kitchen clean"] ∧
    fullNormalize 10 [dishTask] = some (dishNormalized, [0, 1, 2]) ∧
    (getE dishNormalized 1).kind = Kind.goal ∧
    (getE dishNormalized 1).description = "keep kitchen clean" ∧
    (getE dishNormalized 2).kind = Kind.goal ∧
    (getE dishNormalized 2).description = "be a good roommate" ∧
    (getE dishNormalized 0).parent = some 1 ∧
    parentDesc dishNormalized 0 = some "keep kitchen clean" := by
  refine ⟨by decide, rfl, rfl, rfl, by decide, rfl, rfl, rfl, rfl, rfl, rfl⟩

/-- C6: `Note.parse "note"` (1 token) and `Note.parse "note a b"` (3 tokens)
both raise a structural parse error, while `Note.parse "note \"a b\""`
succeeds with note text "a b". -/
theorem c6_note_parse_boundaries :
    Note.parseFn "note" = none ∧
    Note.parseFn "note a b" = none ∧
    Note.parseFn "note \"a b\"" = some ⟨"a b"⟩ := by
  refine ⟨by decide, by decide, by decide⟩

/-- C5 counterexample: `"done"` starts with the two characters "do" but not
with "do" as a complete first word, and `Task.instance` accepts it — refuting
the claim that `Task.instance` holds iff the line starts with the complete
word "do". -/
theorem c5_counterexample :
    Task.instance' "done" = true ∧ startsWithWordDo "done" = false := by
  refine ⟨by decide, by decide⟩

/-- C7 counterexample: on a goal followed by a matching task,
`only_contexts` yields the task before the goal, so it is not an
order-preserving filter of the input list (which the claim asserts). -/
theorem c7_counterexample :
    only_contexts ocHeap [0, 1] (some "gym") false = [1, 0] ∧
    only_contexts_claim ocHeap [0, 1] (some "gym") false = [0, 1] ∧
    only_contexts ocHeap [0, 1] (some "gym") false ≠
      only_contexts_claim ocHeap [0, 1] (some "gym") false := by
  refine ⟨by decide, by decide, by decide⟩

/-- C8 counterexample: two distinct `Task` objects with equal descriptions
are not `==` in Python (`Task` overrides only `__hash__`, not `__eq__`, so
`==` is object identity) — refuting "equal iff descriptions are equal". -/
theorem c8_counterexample :
    (getE twoTasks 0).description = (getE twoTasks 1).description ∧
    objectEq 0 1 = false := by
  refine ⟨by decide, by decide⟩

/-- C8 amended: task equality is object identity, so equal tasks have equal
descriptions (but equal descriptions do not imply equality), and the hash is
a function of the description alone, so equal descriptions give equal
hashes. -/
theorem c8_amended (h : List Entity) (i j : Nat) :
    (objectEq i j = true →
      (getE h i).description = (getE h j).description) ∧
    ((getE h i).description = (getE h j).description →
      taskHash h i = taskHash h j) := by
  constructor
  · intro hij
    have hij' : i = j := by simpa [objectEq] using hij
    rw [hij']
  · intro hd
    simp [taskHash, hd]

/-- C8 witness: the amended theorem applied to the two concrete duplicate
tasks — their equal descriptions force equal hashes. -/
theorem c8_witness : taskHash twoTasks 0 = taskHash twoTasks 1 :=
  (c8_amended twoTasks 0 1).2 (by decide)

theorem isPrefixOf_two (c1 c2 : Char) (l : List Char) :
    [c1, c2].isPrefixOf l = true ↔ l.take 2 = [c1, c2] := by
  match l with
  | [] => simp [List.isPrefixOf]
  | [a] => simp [List.isPrefixOf]
  | a :: b :: t =>
    simp only [List.isPrefixOf, Bool.and_eq_true, beq_iff_eq, List.take,
      List.cons.injEq, and_true, List.isPrefixOf_nil_left]
    constructor
    · rintro ⟨rfl, rfl⟩
      exact ⟨rfl, rfl⟩
    · rintro ⟨rfl, rfl⟩
      exact ⟨rfl, rfl⟩

/-- C5 amended: `Task.instance` holds iff the first two characters of the
line, lowercased, are exactly `d`, `o` — a two-character prefix test, not a
complete-word test. -/
theorem c5_amended (s : String) :
    Task.instance' s = true ↔ (s.data.take 2).map pyLowerChar = ['d', 'o'] := by
  show ("do".data.isPrefixOf (pyLower s).data) = true ↔ _
  have h1 : "do".data = ['d', 'o'] := rfl
  have h2 : (pyLower s).data = s.data.map pyLowerChar := rfl
  rw [h1, h2, isPrefixOf_two, List.map_take]

theorem Task.init_parent_none (d : String) (c : Option String)
    (st : Option Status) (gs : List String) (pt : Option Entity) (t : Entity)
    (h : Task.init d c st gs pt = some t) : t.parent = none := by
  unfold Task.init at h
  repeat' split at h
  all_goals first
    | exact Option.noConfusion h
    | (injection h with h; rw [← h])

/-- C9: every successful `Task.parse` — with or without a `parenttask` —
returns a task whose `parent` attribute is `None`; a supplied parent only
determines the `goals` chain, and object parent pointers are set later by
`readfile` and `normalize_goals`. -/
theorem c9_parse_parent_none (s : String) (pt : Option Entity) (t : Entity)
    (hp : Task.parse s pt = some t) : t.parent = none := by
  unfold Task.parse at hp
  split at hp
  · exact Option.noConfusion hp
  · exact Option.noConfusion hp
  · split at hp
    · split at hp
      · exact Option.noConfusion hp
      · split at hp
        · exact Option.noConfusion hp
        · exact Task.init_parent_none _ _ _ _ _ _ hp
    · exact Option.noConfusion hp

/-- C9 witness: `Task.parse "Do x" none` succeeds and the returned task's
parent is `None`. -/
theorem c9_witness : doXTask.parent = none :=
  c9_parse_parent_none "Do x" none doXTask (by decide)

/-- C7 amended: `only_contexts` yields exactly the kept tasks (context
matching `pc`, or absent context when `incl`) followed by all the goals, each
group preserving the input order (a sublist of `nodes`); it is not a single
order-preserving filter of the interleaved input. -/
theorem c7_amended (h : List Entity) (nodes : List Nat) (pc : Option String)
    (incl : Bool) :
    only_contexts h nodes pc incl =
      nodes.filter (taskKept h pc incl) ++
        nodes.filter (fun n => decide ((getE h n).kind = Kind.goal)) ∧
    (nodes.filter (taskKept h pc incl)).Sublist nodes ∧
    (nodes.filter
      (fun n => decide ((getE h n).kind = Kind.goal))).Sublist nodes := by
  refine ⟨?_, List.filter_sublist nodes, List.filter_sublist nodes⟩
  unfold only_contexts tasksOf goalsOf
  rw [List.filter_filter]
  congr 1
  apply List.filter_congr
  intro n _
  unfold taskKept
  rw [Bool.and_comm]

/-! ## Arena access lemmas -/

theorem getE_setE (h : List Entity) (n j : Nat) (e : Entity) :
    getE (setE h n e) j = if n = j ∧ n < h.length then e else getE h j := by
  unfold getE setE
  rw [List.getD_eq_getElem?_getD, List.getD_eq_getElem?_getD,
    List.getElem?_set]
  by_cases hnj : n = j
  · subst hnj
    by_cases hn : n < h.length
    · simp [hn]
    · rw [List.getElem?_eq_none (Nat.le_of_not_lt hn)]
      simp [hn]
  · simp [hnj]

theorem length_setE (h : List Entity) (n : Nat) (e : Entity) :
    (setE h n e).length = h.length := List.length_set h n e

theorem getE_oor (h : List Entity) (n : Nat) (hn : h.length ≤ n) :
    getE h n = default := by
  unfold getE
  rw [List.getD_eq_getElem?_getD, List.getElem?_eq_none hn]
  rfl

theorem setE_getE_self : ∀ (h : List Entity) (n : Nat),
    setE h n (getE h n) = h
  | [], _ => rfl
  | _ :: _, 0 => rfl
  | a :: t, n + 1 => by
    show a :: setE t n (getE t n) = a :: t
    rw [setE_getE_self t n]

theorem exceptParentEq_refl (a : Entity) : exceptParentEq a a :=
  ⟨rfl, rfl, rfl, rfl, rfl, rfl, rfl⟩

theorem exceptParentEq_trans {a b c : Entity} (h1 : exceptParentEq a b)
    (h2 : exceptParentEq b c) : exceptParentEq a c := by
  obtain ⟨k1, d1, y1, c1, s1, g1, t1⟩ := h1
  obtain ⟨k2, d2, y2, c2, s2, g2, t2⟩ := h2
  exact ⟨k1.trans k2, d1.trans d2, y1.trans y2, c1.trans c2, s1.trans s2,
    g1.trans g2, t1.trans t2⟩

/-! ## First sweep of normalize_goals: preservation lemmas -/

theorem length_parentFix (n : Nat) (h : List Entity) (c : Nat) :
    (parentFix n h c).length = h.length := by
  unfold parentFix
  split
  · exact length_setE h c _
  · rfl

theorem length_sweep1Inner (n : Nat) : ∀ (cs : List Nat) (h : List Entity),
    (sweep1Inner n h cs).length = h.length
  | [], _ => rfl
  | c :: cs, h => by
    rw [sweep1Inner, length_sweep1Inner n cs, length_parentFix]

theorem length_sweep1 : ∀ (lst : List Nat) (h : List Entity),
    (sweep1 h lst).length = h.length
  | [], _ => rfl
  | n :: rest, h => by
    rw [sweep1, length_sweep1 rest, length_sweep1Inner]

theorem parentFix_exceptParent (n : Nat) (h : List Entity) (c i : Nat) :
    exceptParentEq (getE (parentFix n h c) i) (getE h i) := by
  unfold parentFix
  split
  · rw [getE_setE]
    split
    · rename_i hci
      obtain ⟨rfl, _⟩ := hci
      exact ⟨rfl, rfl, rfl, rfl, rfl, rfl, rfl⟩
    · exact exceptParentEq_refl _
  · exact exceptParentEq_refl _

theorem sweep1Inner_exceptParent (n : Nat) : ∀ (cs : List Nat)
    (h : List Entity) (i : Nat),
    exceptParentEq (getE (sweep1Inner n h cs) i) (getE h i)
  | [], _, _ => exceptParentEq_refl _
  | c :: cs, h, i => by
    rw [sweep1Inner]
    exact exceptParentEq_trans (sweep1Inner_exceptParent n cs _ i)
      (parentFix_exceptParent n h c i)

theorem sweep1_exceptParent : ∀ (lst : List Nat) (h : List Entity) (i : Nat),
    exceptParentEq (getE (sweep1 h lst) i) (getE h i)
  | [], _, _ => exceptParentEq_refl _
  | n :: rest, h, i => by
    rw [sweep1]
    exact exceptParentEq_trans (sweep1_exceptParent rest _ i)
      (sweep1Inner_exceptParent n _ h i)

theorem parentFix_parent_some (n : Nat) (h : List Entity) (c i p : Nat)
    (hp : (getE h i).parent = some p) :
    (getE (parentFix n h c) i).parent = some p := by
  unfold parentFix
  split
  · rename_i hc
    rw [getE_setE]
    split
    · rename_i hci
      obtain ⟨rfl, _⟩ := hci
      rw [hc] at hp
      exact Option.noConfusion hp
    · exact hp
  · exact hp

theorem sweep1Inner_parent_some (n : Nat) : ∀ (cs : List Nat)
    (h : List Entity) (i p : Nat), (getE h i).parent = some p →
    (getE (sweep1Inner n h cs) i).parent = some p
  | [], _, _, _, hp => hp
  | c :: cs, h, i, p, hp => by
    rw [sweep1Inner]
    exact sweep1Inner_parent_some n cs _ i p
      (parentFix_parent_some n h c i p hp)

theorem sweep1_parent_some : ∀ (lst : List Nat) (h : List Entity) (i p : Nat),
    (getE h i).parent = some p →
    (getE (sweep1 h lst) i).parent = some p
  | [], _, _, _, hp => hp
  | n :: rest, h, i, p, hp => by
    rw [sweep1]
    exact sweep1_parent_some rest _ i p
      (sweep1Inner_parent_some n _ h i p hp)

theorem sweep1Inner_parent_ne_none (n : Nat) : ∀ (cs : List Nat)
    (h : List Entity) (i : Nat), (getE h i).parent ≠ none →
    (getE (sweep1Inner n h cs) i).parent ≠ none := by
  intro cs h i hne
  cases hp : (getE h i).parent with
  | none => exact absurd hp hne
  | some p =>
    rw [sweep1Inner_parent_some n cs h i p hp]
    exact Option.noConfusion

theorem sweep1_parent_ne_none : ∀ (lst : List Nat) (h : List Entity)
    (i : Nat), (getE h i).parent ≠ none →
    (getE (sweep1 h lst) i).parent ≠ none := by
  intro lst h i hne
  cases hp : (getE h i).parent with
  | none => exact absurd hp hne
  | some p =>
    rw [sweep1_parent_some lst h i p hp]
    exact Option.noConfusion

theorem parentFix_self_ne_none (n : Nat) (h : List Entity) (c : Nat)
    (hc : c < h.length) : (getE (parentFix n h c) c).parent ≠ none := by
  unfold parentFix
  split
  · rw [getE_setE]
    simp [hc]
  · assumption

theorem sweep1Inner_sets (n : Nat) : ∀ (cs : List Nat) (h : List Entity)
    (c : Nat), c ∈ cs → c < h.length →
    (getE (sweep1Inner n h cs) c).parent ≠ none := by
  intro cs
  induction cs with
  | nil => intro h c hc; exact absurd hc (List.not_mem_nil c)
  | cons c0 cs ih =>
    intro h c hc hlen
    rw [sweep1Inner]
    rcases List.mem_cons.mp hc with rfl | hmem
    · exact sweep1Inner_parent_ne_none n cs _ c
        (parentFix_self_ne_none n h c hlen)
    · exact ih (parentFix n h c0) c hmem
        (by rw [length_parentFix]; exact hlen)

theorem sweep1_fixed : ∀ (lst : List Nat) (h : List Entity),
    sweep1Fixed (sweep1 h lst) lst := by
  intro lst
  induction lst with
  | nil => intro h n hn; exact absurd hn (List.not_mem_nil n)
  | cons n0 rest ih =>
    intro h n hn c hc hlen
    rw [sweep1] at hc hlen ⊢
    rcases List.mem_cons.mp hn with rfl | hmem
    · have hsub : (getE (sweep1 (sweep1Inner n h (getE h n).subtasks) rest)
          n).subtasks = (getE h n).subtasks := by
        have h1 := (sweep1_exceptParent rest
          (sweep1Inner n h (getE h n).subtasks) n).2.2.2.2.2.2
        have h2 := (sweep1Inner_exceptParent n (getE h n).subtasks h
          n).2.2.2.2.2.2
        exact h1.trans h2
      rw [hsub] at hc
      have hlen' : c < h.length := by
        rwa [length_sweep1, length_sweep1Inner] at hlen
      apply sweep1_parent_ne_none
      exact sweep1Inner_sets n (getE h n).subtasks h c hc hlen'
    · exact ih (sweep1Inner n0 h (getE h n0).subtasks) n hmem c hc hlen

theorem sweep1Inner_of_fixed (n : Nat) : ∀ (cs : List Nat) (h : List Entity),
    (∀ c ∈ cs, c < h.length → (getE h c).parent ≠ none) →
    sweep1Inner n h cs = h := by
  intro cs
  induction cs with
  | nil => intro h _; rfl
  | cons c0 cs ih =>
    intro h hfix
    have hstep : parentFix n h c0 = h := by
      unfold parentFix
      split
      · rename_i hnone
        by_cases hlen : c0 < h.length
        · exact absurd hnone (hfix c0 (List.mem_cons_self c0 cs) hlen)
        · exact List.set_eq_of_length_le (Nat.le_of_not_lt hlen)
      · rfl
    rw [sweep1Inner, hstep]
    exact ih h fun c hc => hfix c (List.mem_cons_of_mem c0 hc)

theorem sweep1_of_fixed : ∀ (lst : List Nat) (h : List Entity),
    sweep1Fixed h lst → sweep1 h lst = h := by
  intro lst
  induction lst with
  | nil => intro h _; rfl
  | cons n0 rest ih =>
    intro h hfix
    have hstep : sweep1Inner n0 h (getE h n0).subtasks = h :=
      sweep1Inner_of_fixed n0 (getE h n0).subtasks h
        (hfix n0 (List.mem_cons_self n0 rest))
    rw [sweep1, hstep]
    exact ih h fun n hn => hfix n (List.mem_cons_of_mem n0 hn)

/-! ## Second sweep of normalize_goals: the rebuilt chains are exactly the
parent walks -/

theorem parentWalk_congr (h h' : List Entity)
    (hpar : ∀ i, (getE h i).parent = (getE h' i).parent)
    (hdesc : ∀ i, (getE h i).description = (getE h' i).description) :
    ∀ (f : Nat) (p : Option Nat), parentWalk h f p = parentWalk h' f p := by
  intro f
  induction f with
  | zero =>
    intro p
    cases p with
    | none => rfl
    | some i => rfl
  | succ f ih =>
    intro p
    cases p with
    | none => rfl
    | some i =>
      show (parentWalk h f (getE h i).parent).map _ =
        (parentWalk h' f (getE h' i).parent).map _
      rw [← hpar i, ih, hdesc i]

theorem length_sweep2 : ∀ (l : List Nat) (h h' : List Entity),
    sweep2 l h = some h' → h'.length = h.length
  | [], h, h', hs => by
    injection hs with hs
    rw [← hs]
  | n :: rest, h, h', hs => by
    rw [sweep2] at hs
    split at hs
    · exact Option.noConfusion hs
    · rw [length_sweep2 rest _ h' hs, length_setE]

theorem setE_goals_step (h : List Entity) (n : Nat) (gs : List String)
    (i : Nat) :
    (getE (setE h n { getE h n with goals := gs }) i).parent =
      (getE h i).parent ∧
    (getE (setE h n { getE h n with goals := gs }) i).description =
      (getE h i).description ∧
    (getE (setE h n { getE h n with goals := gs }) i).subtasks =
      (getE h i).subtasks := by
  rw [getE_setE]
  split
  · rename_i hni
    obtain ⟨rfl, _⟩ := hni
    exact ⟨rfl, rfl, rfl⟩
  · exact ⟨rfl, rfl, rfl⟩

theorem sweep2_preserves : ∀ (l : List Nat) (h h' : List Entity),
    sweep2 l h = some h' → ∀ i,
    (getE h' i).parent = (getE h i).parent ∧
    (getE h' i).description = (getE h i).description ∧
    (getE h' i).subtasks = (getE h i).subtasks
  | [], h, h', hs => by
    injection hs with hs
    rw [← hs]
    exact fun i => ⟨rfl, rfl, rfl⟩
  | n :: rest, h, h', hs => by
    rw [sweep2] at hs
    split at hs
    · exact Option.noConfusion hs
    · rename_i gs _
      intro i
      have step := setE_goals_step h n gs i
      have rec := sweep2_preserves rest _ h' hs i
      exact ⟨rec.1.trans step.1, rec.2.1.trans step.2.1,
        rec.2.2.trans step.2.2⟩

theorem sweep2_untouched : ∀ (l : List Nat) (h h' : List Entity),
    sweep2 l h = some h' → ∀ i, i ∉ l →
    (getE h' i).goals = (getE h i).goals
  | [], h, h', hs => by
    injection hs with hs
    rw [← hs]
    exact fun i _ => rfl
  | n :: rest, h, h', hs => by
    rw [sweep2] at hs
    split at hs
    · exact Option.noConfusion hs
    · intro i hi
      have hin : i ≠ n := fun he => hi (he ▸ List.mem_cons_self n rest)
      have hir : i ∉ rest := fun he => hi (List.mem_cons_of_mem n he)
      have rec := sweep2_untouched rest _ h' hs i hir
      rw [rec, getE_setE]
      split
      · rename_i hni
        exact absurd hni.1.symm hin
      · rfl

theorem sweep2_spec : ∀ (l : List Nat) (h h' : List Entity),
    sweep2 l h = some h' → ∀ n ∈ l,
    parentWalk h' (h.length + 1) (getE h' n).parent =
      some ((getE h' n).goals)
  | [], _, _, _ => fun n hn => absurd hn (List.not_mem_nil n)
  | n0 :: rest, h, h', hs => by
    rw [sweep2] at hs
    split at hs
    · exact Option.noConfusion hs
    · rename_i gs hw
      intro n hn
      by_cases hnr : n ∈ rest
      · have := sweep2_spec rest _ h' hs n hnr
        rwa [length_setE] at this
      · have hn0 : n = n0 := by
          rcases List.mem_cons.mp hn with he | he
          · exact he
          · exact absurd he hnr
        subst hn0
        -- the walk in h' agrees with the walk in h
        have hpres := sweep2_preserves rest _ h' hs
        have hstep := setE_goals_step h n gs
        have hpar : ∀ i, (getE h' i).parent = (getE h i).parent :=
          fun i => (hpres i).1.trans (hstep i).1
        have hdesc : ∀ i, (getE h' i).description = (getE h i).description :=
          fun i => (hpres i).2.1.trans (hstep i).2.1
        have hwalk := parentWalk_congr h' h
          (fun i => hpar i) (fun i => hdesc i) (h.length + 1)
          ((getE h' n).parent)
        -- the goals stored at n in h' are gs (or the untouched out-of-range
        -- default, which the walk also returns)
        have hgoals : (getE h' n).goals = gs := by
          have hunt := sweep2_untouched rest _ h' hs n hnr
          rw [hunt, getE_setE]
          split
          · rfl
          · rename_i hcond
            have hlen : h.length ≤ n := by
              rcases not_and_or.mp hcond with hc | hc
              · exact absurd rfl hc
              · exact Nat.le_of_not_lt hc
            have hdef : getE h n = default := getE_oor h n hlen
            have hnone : parentWalk h (h.length + 1) none = some gs := by
              rw [← hw, hdef]
              rfl
            injection hnone with hnone
            rw [hdef, ← hnone]
            rfl
        rw [hwalk, hpar n, hw, hgoals]

theorem sweep2_of_fixed : ∀ (l : List Nat) (h : List Entity),
    (∀ n ∈ l, parentWalk h (h.length + 1) (getE h n).parent =
      some ((getE h n).goals)) →
    sweep2 l h = some h := by
  intro l
  induction l with
  | nil => intro h _; rfl
  | cons n rest ih =>
    intro h hfix
    rw [sweep2, hfix n (List.mem_cons_self n rest)]
    show sweep2 rest (setE h n { getE h n with goals := (getE h n).goals }) =
      some h
    have heta : ({ getE h n with goals := (getE h n).goals } : Entity) =
        getE h n := rfl
    rw [heta, setE_getE_self]
    exact ih h fun m hm => hfix m (List.mem_cons_of_mem n hm)

/-- C3: normalize_goals is idempotent — rerunning it on a list it has already
normalized reproduces the same arena exactly, so no entity's `goals` chain
and no entity's `parent` pointer changes (the hypothesis states that the
first run terminated, which in Python is the assumption that the parent graph
is acyclic). -/
theorem c3_normalize_goals_idempotent (lst : List Nat) (h h' : List Entity)
    (hrun : normalize_goals lst h = some h') :
    normalize_goals lst h' = some h' := by
  unfold normalize_goals at hrun ⊢
  have hfix1 : sweep1Fixed (sweep1 h lst) lst := sweep1_fixed lst h
  have hpres := sweep2_preserves lst (sweep1 h lst) h' hrun
  have hlen := length_sweep2 lst (sweep1 h lst) h' hrun
  have hfix' : sweep1Fixed h' lst := by
    intro n hn c hc hcl
    rw [(hpres n).2.2] at hc
    rw [hlen] at hcl
    rw [(hpres c).1]
    exact hfix1 n hn c hc hcl
  rw [sweep1_of_fixed lst h' hfix']
  apply sweep2_of_fixed
  intro n hn
  have hsp := sweep2_spec lst (sweep1 h lst) h' hrun n hn
  rwa [← hlen] at hsp

/-- C3 witness: the idempotence theorem applied to the concrete one-entity
arena `wC3pre`, whose normalization gives `wC3post`. -/
theorem c3_witness : normalize_goals [0] wC3post = some wC3post :=
  c3_normalize_goals_idempotent [0] wC3pre wC3post (by decide)

theorem parentHops_eq_walk (h : List Entity) : ∀ (f : Nat) (p : Option Nat),
    parentHops h f p = (parentWalk h f p).map List.length := by
  intro f
  induction f with
  | zero =>
    intro p
    cases p with
    | none => rfl
    | some i => rfl
  | succ f ih =>
    intro p
    cases p with
    | none => rfl
    | some i =>
      show (parentHops h f (getE h i).parent).map (· + 1) =
        ((parentWalk h f (getE h i).parent).map
          (fun l => (getE h i).description :: l)).map List.length
      rw [ih]
      cases parentWalk h f (getE h i).parent with
      | none => rfl
      | some l => rfl

/-- C4: after normalize_goals (whose successful run encodes the claim's
acyclicity precondition — the parent walk terminates), every Goal's `goals`
chain has length equal to the number of parent-pointer hops from the goal to
its root: one chain entry per proper ancestor. -/
theorem c4_chain_length_eq_hops (lst : List Nat) (h h' : List Entity)
    (hrun : normalize_goals lst h = some h') (n : Nat) (hn : n ∈ lst)
    (_hgoal : (getE h' n).kind = Kind.goal) :
    parentHops h' (h'.length + 1) (getE h' n).parent =
      some ((getE h' n).goals.length) := by
  unfold normalize_goals at hrun
  have hlen := length_sweep2 lst (sweep1 h lst) h' hrun
  have hsp := sweep2_spec lst (sweep1 h lst) h' hrun n hn
  rw [parentHops_eq_walk, ← hlen] at *
  rw [hsp]
  rfl

/-- C4 witness: the theorem applied to the concrete two-goal arena: the
child goal's rebuilt chain has length 1, matching its single parent hop. -/
theorem c4_witness :
    parentHops wC4post (wC4post.length + 1) (getE wC4post 1).parent =
      some ((getE wC4post 1).goals.length) :=
  c4_chain_length_eq_hops [0, 1] wC4pre wC4post (by decide) 1 (by decide)
    (by decide)

/-- C1 counterexample: for the dishes input, full normalization leaves the
dishes task with the non-empty chain
`["keep kitchen clean", "be a good roommate"]` but with parent
"keep kitchen clean" — the parent's description is the FIRST chain entry,
not the last, refuting `e.parent.description == e.goals[-1]`. -/
theorem c1_counterexample :
    fullNormalize 10 [dishTask] = some (dishNormalized, [0, 1, 2]) ∧
    (getE dishNormalized 0).goals ≠ [] ∧
    parentDesc dishNormalized 0 ≠
      some ((getE dishNormalized 0).goals.getLastD "") := by
  refine ⟨by decide, by decide, by decide⟩

/-- C1 amended: after full normalization (readfile's fixpoint followed by
normalize_goals), every returned entity with a non-empty `goals` chain has
its parent set, and the parent's description is `goals[0]` — the chain is
rebuilt by the parent walk nearest-ancestor-first, reversing the pre-
normalization nearest-last convention. -/
theorem c1_parent_is_head (fuel : Nat) (h0 h'' : List Entity)
    (lst : List Nat) (hrun : fullNormalize fuel h0 = some (h'', lst))
    (n : Nat) (hn : n ∈ lst) (hne : (getE h'' n).goals ≠ []) :
    (getE h'' n).parent.isSome = true ∧
    parentDesc h'' n = (getE h'' n).goals.head? := by
  unfold fullNormalize at hrun
  split at hrun
  · exact Option.noConfusion hrun
  · rename_i h1 lst1 _
    split at hrun
    · exact Option.noConfusion hrun
    · rename_i h2 hnorm
      injection hrun with hrun
      injection hrun with hrun1 hrun2
      subst hrun1
      subst hrun2
      unfold normalize_goals at hnorm
      have hsp := sweep2_spec lst1 (sweep1 h1 lst1) h2 hnorm n hn
      rcases hpcase : (getE h2 n).parent with _ | p
      case none =>
        rw [hpcase] at hsp
        have hnil : ([] : List String) = (getE h2 n).goals := by
          injection hsp
        exact absurd hnil.symm hne
      case some =>
        rw [hpcase] at hsp
        have hstep : (parentWalk h2 (sweep1 h1 lst1).length
            (getE h2 p).parent).map
            (fun l => (getE h2 p).description :: l) =
            some ((getE h2 n).goals) := hsp
        constructor
        · rfl
        · cases hwk : parentWalk h2 (sweep1 h1 lst1).length
            (getE h2 p).parent with
          | none =>
            rw [hwk] at hstep
            exact Option.noConfusion hstep
          | some l =>
            rw [hwk] at hstep
            injection hstep with hstep
            unfold parentDesc
            rw [hpcase]
            show some ((getE h2 p).description) = (getE h2 n).goals.head?
            rw [← hstep]
            rfl

/-- C1 witness: the amended theorem evaluated on the normalized dishes arena:
the dishes task's parent is set and its description is the head of the
chain. -/
theorem c1_witness :
    (getE dishNormalized 0).parent.isSome = true ∧
    parentDesc dishNormalized 0 = (getE dishNormalized 0).goals.head? :=
  c1_parent_is_head 10 [dishTask] dishNormalized [0, 1, 2] (by decide) 0
    (by decide) (by decide)

/-! ## abbreviated: a node under a done non-goal parent is dropped -/

theorem coreAgree_refl (h : List Entity) : coreAgree h h :=
  fun _ => ⟨rfl, rfl, rfl⟩

theorem coreAgree_abbrevDisplay (h h' : List Entity) (hc : coreAgree h h')
    (nodes0 : List Nat) (m : Nat) :
    coreAgree h (abbrevDisplay nodes0 h' m) := by
  unfold abbrevDisplay
  split
  · split
    · exact hc
    · intro i
      rw [getE_setE]
      split
      · rename_i hmi
        obtain ⟨rfl, _⟩ := hmi
        exact hc _
      · exact hc _
  · exact hc

theorem abbrevAux_not_mem (nodes0 : List Nat) (h : List Entity) (n p : Nat)
    (hkind : (getE h n).kind ≠ Kind.goal)
    (hp : (getE h n).parent = some p)
    (hpk : (getE h p).kind ≠ Kind.goal)
    (hdone : (getE h p).status.done = true) :
    ∀ (l : List Nat) (h' : List Entity), coreAgree h h' →
      n ∉ (abbrevAux nodes0 h' l).2 := by
  intro l
  induction l with
  | nil =>
    intro h' _
    exact List.not_mem_nil n
  | cons m rest ih =>
    intro h' hagree
    rw [abbrevAux]
    by_cases hmn : m = n
    · subst hmn
      have hk' : (getE h' m).kind = (getE h m).kind := (hagree m).1
      have hp' : (getE h' m).parent = (getE h m).parent := (hagree m).2.1
      have hcond : (decide ((getE h' m).kind = Kind.goal) ||
          parentIsGoal h' (getE h' m)) = false := by
        rw [Bool.or_eq_false_iff]
        constructor
        · rw [hk']
          exact decide_eq_false hkind
        · unfold parentIsGoal
          rw [hp', hp]
          show decide ((getE h' p).kind = Kind.goal) = false
          rw [(hagree p).1]
          exact decide_eq_false hpk
      rw [hcond]
      show m ∉ (match (getE h' m).parent with
        | none => yieldCons m (abbrevAux nodes0 h' rest)
        | some q =>
          if (getE h' q).status.done then abbrevAux nodes0 h' rest
          else
            yieldCons m (abbrevAux nodes0 (abbrevDisplay nodes0 h' m)
              rest)).2
      rw [hp', hp]
      show m ∉ (if (getE h' p).status.done then abbrevAux nodes0 h' rest
        else yieldCons m (abbrevAux nodes0 (abbrevDisplay nodes0 h' m)
          rest)).2
      have hd' : (getE h' p).status = (getE h p).status := (hagree p).2.2
      rw [hd', hdone]
      show m ∉ (abbrevAux nodes0 h' rest).2
      exact ih h' hagree
    · have hne : n ≠ m := fun he => hmn he.symm
      split
      · show n ∉ m :: (abbrevAux nodes0 h' rest).2
        rw [List.mem_cons]
        rintro (rfl | hmem)
        · exact hne rfl
        · exact ih h' hagree hmem
      · split
        · show n ∉ m :: (abbrevAux nodes0 h' rest).2
          rw [List.mem_cons]
          rintro (rfl | hmem)
          · exact hne rfl
          · exact ih h' hagree hmem
        · split
          · exact ih h' hagree
          · show n ∉ m :: (abbrevAux nodes0
              (abbrevDisplay nodes0 h' m) rest).2
            rw [List.mem_cons]
            rintro (rfl | hmem)
            · exact hne rfl
            · exact ih (abbrevDisplay nodes0 h' m)
                (coreAgree_abbrevDisplay h h' hagree nodes0 m) hmem

/-- C10: `abbreviated` drops an entity entirely (it is never yielded) when
the entity is not a Goal, its parent is present and is not a Goal, and that
parent's status is done — descendants of a completed non-goal task vanish
from the view rather than being annotated. -/
theorem c10_done_parent_dropped (h : List Entity) (nodes : List Nat)
    (n p : Nat) (hkind : (getE h n).kind ≠ Kind.goal)
    (hp : (getE h n).parent = some p)
    (hpk : (getE h p).kind ≠ Kind.goal)
    (hdone : (getE h p).status.done = true) :
    n ∉ (abbreviated h nodes).2 :=
  abbrevAux_not_mem nodes h n p hkind hp hpk hdone nodes h (coreAgree_refl h)

/-- C10 witness: in the concrete arena with a done parent task and its child,
the child (index 1) is absent from the abbreviated view. -/
theorem c10_witness : 1 ∉ (abbreviated abHeap [0, 1]).2 :=
  c10_done_parent_dropped abHeap [0, 1] 1 0 (by decide) (by decide)
    (by decide) (by decide)

end Gtd
